import Mathlib

/-!
Verification of the ordered key/value index (`DoubleLinkedSet` together with
`DoubleLinked.cleanup_sessions`) from `src/perf_expire.py`: a hash map fused
with a doubly linked list, keyed by integer ids, whose values are timestamps.

The embedding is a direct functional translation of the Python code:
  * `Node` mirrors the Python `Node` class (`id`, `value`, `parent_id`,
    `child_id`, the latter two being `Option Nat` with `None ↦ none`).
  * the `dict` `self._map` becomes an association list `NodeMap` with
    first-match lookup; dict insertion order is never observed by the code
    (only `len`, membership, `[]`, `.get` are used on it), so an
    erase-then-append store is observationally faithful.
  * Python truthiness matters: the source guards several pointer updates with
    `if node.child_id:`, `if self._tail_id:`, `if not self._head_id:` where
    the tested object is an integer key or `None`.  In Python both `None`
    and the integer `0` are falsy, so `truthy` below maps `none ↦ false`,
    `some 0 ↦ false`, `some (k+1) ↦ true`.  Integer keys are what the
    program itself uses (`user_id = random.randint(0, N)`), so `Nat` keys —
    including `0` — are the faithful instantiation.
  * Python key equality (`node_id == self._head_id`, an `int` compared with
    an `Optional[int]`) is ordinary equality with `some`, not truthiness.
-/

namespace PerfExpire

/-- Translation of the Python `Node` class (`src/perf_expire.py`, class
`Node`): slots `id`, `value`, `parent_id`, `child_id`. -/
structure Node where
  id : Nat
  value : Nat
  parent_id : Option Nat
  child_id : Option Nat
deriving DecidableEq, Repr

/-- The `self._map` dictionary, as an association list from key to `Node`. -/
abbrev NodeMap := List (Nat × Node)

/-- Python truthiness of an `Optional[int]`: `None` and `0` are falsy. -/
def truthy : Option Nat → Bool
  | none => false
  | some k => k != 0

/-- Dictionary lookup `self._map[k]` / `self._map.get(k)`: first match. -/
def mapFind : NodeMap → Nat → Option Node
  | [], _ => none
  | (k, n) :: rest, key => if k = key then some n else mapFind rest key

/-- Removal of a key, the effect of `self._map.pop(k)` on the dictionary. -/
def mapErase (m : NodeMap) (k : Nat) : NodeMap :=
  m.filter (fun p => p.1 != k)

/-- Dictionary store `self._map[k] = n`.  The code only ever stores a key
that is currently absent (a present key is popped first), and dict order is
unobserved, so erase-then-append is faithful. -/
def mapStore (m : NodeMap) (k : Nat) (n : Node) : NodeMap :=
  mapErase m k ++ [(k, n)]

/-- In-place field update `self._map[k].parent_id = p` (no-op if `k` is
absent; the Python code only reaches this with `k` present). -/
def setParent (m : NodeMap) (k : Nat) (p : Option Nat) : NodeMap :=
  m.map (fun q => if q.1 = k then (q.1, { q.2 with parent_id := p }) else q)

/-- In-place field update `self._map[k].child_id = c` (no-op if `k` is
absent; the Python code only reaches this with `k` present). -/
def setChild (m : NodeMap) (k : Nat) (c : Option Nat) : NodeMap :=
  m.map (fun q => if q.1 = k then (q.1, { q.2 with child_id := c }) else q)

/-- `if o: self._map[o].parent_id = p` — guarded by Python truthiness of the
key `o`, so the update is skipped both for `None` and for the key `0`. -/
def patchParent (m : NodeMap) : Option Nat → Option Nat → NodeMap
  | some c, p => if c = 0 then m else setParent m c p
  | none, _ => m

/-- `if o: self._map[o].child_id = c` — guarded by Python truthiness of the
key `o`, so the update is skipped both for `None` and for the key `0`. -/
def patchChild (m : NodeMap) : Option Nat → Option Nat → NodeMap
  | some k, c => if k = 0 then m else setChild m k c
  | none, _ => m

/-- State of the Python class `DoubleLinkedSet`: the dictionary `_map` plus
the endpoint keys `_head_id` and `_tail_id` (integers or `None`). -/
structure DoubleLinkedSet where
  map : NodeMap
  head_id : Option Nat
  tail_id : Option Nat
deriving DecidableEq, Repr

/-- `DoubleLinkedSet.__init__`: empty map, no endpoints. -/
def emptyDLS : DoubleLinkedSet := ⟨[], none, none⟩

/-- Shared tail of `DoubleLinkedSet.add` after the two branches: stores the
node, then `if self._tail_id: self._map[self._tail_id].child_id = node_id`,
then `self._tail_id = node_id`, then
`if not self._head_id: self._head_id = node_id`. -/
def addFinish (m : NodeMap) (h t : Option Nat) (node_id : Nat) (node1 : Node) :
    DoubleLinkedSet :=
  let m4 := mapStore m node_id node1
  let m5 := patchChild m4 t (some node_id)
  { map := m5,
    head_id := if truthy h then h else some node_id,
    tail_id := some node_id }

/-- Translation of `DoubleLinkedSet.add(node_id, node_value)` — the spec's
`upsert`.  In the present branch the node is popped, its neighbours are
patched (each patch guarded by truthiness of the neighbour key), the
endpoints are fixed (plain equality tests), and the node is rebuilt with the
new value, `child_id = None`, `parent_id = self._tail_id` (the tail read
AFTER the endpoint fixup, as in the source). -/
def add (s : DoubleLinkedSet) (node_id node_value : Nat) : DoubleLinkedSet :=
  match mapFind s.map node_id with
  | some node0 =>
      let m1 := mapErase s.map node_id
      let m2 := patchParent m1 node0.child_id node0.parent_id
      let m3 := patchChild m2 node0.parent_id node0.child_id
      let h1 := if s.head_id = some node_id then node0.child_id else s.head_id
      let t1 := if s.tail_id = some node_id then node0.parent_id else s.tail_id
      addFinish m3 h1 t1 node_id ⟨node_id, node_value, t1, none⟩
  | none =>
      addFinish s.map s.head_id s.tail_id node_id
        ⟨node_id, node_value, s.tail_id, none⟩

/-- Translation of `DoubleLinkedSet.head()` — the spec's `oldest()`:
`if self._head_id: return self._map[self._head_id]`; the guard is Python
truthiness, so a head key `0` makes the method return `None`. -/
def head (s : DoubleLinkedSet) : Option Node :=
  match s.head_id with
  | some k => if k = 0 then none else mapFind s.map k
  | none => none

/-- Translation of `DoubleLinkedSet.unlink(node_id)` — the spec's
`removeByKey`.  The Python method has no `return` statement, hence always
evaluates to `None`: the first component of the result models that returned
value and is always `none`. -/
def unlink (s : DoubleLinkedSet) (node_id : Nat) :
    Option Nat × DoubleLinkedSet :=
  match mapFind s.map node_id with
  | some node0 =>
      let m1 := mapErase s.map node_id
      let m2 := patchParent m1 node0.child_id node0.parent_id
      let m3 := patchChild m2 node0.parent_id node0.child_id
      let h1 := if s.head_id = some node_id then node0.child_id else s.head_id
      let t1 := if s.tail_id = some node_id then node0.parent_id else s.tail_id
      (none, ⟨m3, h1, t1⟩)
  | none => (none, s)

/-- Traversal core of `DoubleLinkedSet.__iter__`:
`node = self._map.get(o)` (a `.get`, so no truthiness is involved and the
key `0` is looked up normally; `get(None)` is `None`), yield, follow
`child_id`.  `fuel` only bounds the recursion; a chain satisfying the
I1–I3 invariants is acyclic and visits at most `m.length` nodes, so with
`fuel ≥ m.length` the traversal below is the Python one. -/
def iterFrom (m : NodeMap) : Option Nat → Nat → List Node
  | _, 0 => []
  | o, fuel + 1 =>
      match o with
      | none => []
      | some k =>
          match mapFind m k with
          | none => []
          | some node => node :: iterFrom m node.child_id fuel

/-- Translation of `DoubleLinkedSet.__iter__` — the spec's `iterate()`. -/
def iterate (s : DoubleLinkedSet) : List Node :=
  iterFrom s.map s.head_id s.map.length

/-- Translation of `DoubleLinkedSet.__len__` — the spec's `size()`:
`len(self._map)`. -/
def size (s : DoubleLinkedSet) : Nat :=
  s.map.length

/-- Loop body of `DoubleLinked.cleanup_sessions(expire_timestamp)` — the
spec's `expireUpTo` with `isExpired(value, cutoff) = (value <= cutoff)`:
`sess = self.dlset.head()`; while a node exists, break when
`sess.value > expire_timestamp`, otherwise `self.dlset.unlink(sess.id)` and
count it.  (The companion `del self.user_sessions[sess.id]` touches the
external per-user dictionary, which the spec excludes from the core; it does
not affect the index.)  `fuel` only bounds the loop: on a state satisfying
I1–I3 every iteration removes one mapped node, so `size + 1` rounds always
suffice. -/
def cleanupLoop : DoubleLinkedSet → Nat → Nat → Nat × DoubleLinkedSet
  | s, _, 0 => (0, s)
  | s, cutoff, fuel + 1 =>
      match head s with
      | none => (0, s)
      | some sess =>
          if sess.value > cutoff then (0, s)
          else
            let r := cleanupLoop (unlink s sess.id).2 cutoff fuel
            (r.1 + 1, r.2)

/-- Translation of `DoubleLinked.cleanup_sessions` restricted to its effect
on the index (count of removed entries, resulting index). -/
def cleanup_sessions (s : DoubleLinkedSet) (cutoff : Nat) :
    Nat × DoubleLinkedSet :=
  cleanupLoop s cutoff (s.map.length + 1)

/-- Key of the first entry of an abstract chain (oldest end). -/
def keyHead : List (Nat × Nat) → Option Nat
  | [] => none
  | (k, _) :: _ => some k

/-- Key of the last entry of an abstract chain (newest end). -/
def keyLast (L : List (Nat × Nat)) : Option Nat :=
  L.getLast?.map Prod.fst

/-- The node map a well-formed index must carry when its chain, read from
oldest to newest, is the key/value list `L` and the key before the first
entry is `prev`: each key maps to a node holding that key, its value, the
previous key and the next key. -/
def chainNodes : Option Nat → List (Nat × Nat) → NodeMap
  | _, [] => []
  | prev, (k, v) :: rest => (k, ⟨k, v, prev, keyHead rest⟩) :: chainNodes (some k) rest

/-- `Represents s L` formalises invariants I1–I3 of the spec with explicit
chain `L` (oldest to newest): the map holds exactly the nodes of the chain,
each key once (I1, and I3's no-dangling/no-cycle since every `parent_id` /
`child_id` in `chainNodes` is an adjacent key of the nodup list `L`), and
the endpoints are the first and last chain keys (I2 follows: endpoints are
`none` iff `L = []` iff the map is empty). -/
def Represents (s : DoubleLinkedSet) (L : List (Nat × Nat)) : Prop :=
  s.map.Perm (chainNodes none L) ∧ (L.map Prod.fst).Nodup ∧
    s.head_id = keyHead L ∧ s.tail_id = keyLast L

/-- A state satisfies invariants I1–I3 iff some chain represents it. -/
def Invariant (s : DoubleLinkedSet) : Prop :=
  ∃ L, Represents s L

/-- The value stored for a key, ignoring the positional link fields. -/
def findValue (m : NodeMap) (k : Nat) : Option Nat :=
  (mapFind m k).map Node.value

/-! Concrete states used by the claims below. -/

/-- State reached from the empty index by `upsert(0, 1)`. -/
def zeroKeyState : DoubleLinkedSet := add emptyDLS 0 1

/-- State reached from the empty index by `upsert(0, 1); upsert(1, 2)`. -/
def zeroThenOneState : DoubleLinkedSet := add zeroKeyState 1 2

/-- A four-node index whose chain, oldest to newest, is
`1:10, 0:20, 2:30, 3:40`: it satisfies invariants I1–I3 and holds the falsy
key `0` in an interior position. -/
def interiorZeroState : DoubleLinkedSet :=
  ⟨[(1, ⟨1, 10, none, some 0⟩), (0, ⟨0, 20, some 1, some 2⟩),
    (2, ⟨2, 30, some 0, some 3⟩), (3, ⟨3, 40, some 2, none⟩)],
   some 1, some 3⟩

/-- A two-node index whose chain, oldest to newest, is `0:1, 1:2`: it
satisfies invariants I1–I3, its values are non-decreasing, and its oldest
key is the falsy key `0`. -/
def zeroHeadState : DoubleLinkedSet :=
  ⟨[(0, ⟨0, 1, none, some 1⟩), (1, ⟨1, 2, some 0, none⟩)], some 0, some 1⟩

/-- State of the spec's example scenario after `upsert(A:1, B:2, C:3)`,
with keys `A, B, C` instantiated as `1, 2, 3`. -/
def scenarioABC : DoubleLinkedSet := add (add (add emptyDLS 1 1) 2 2) 3 3

/-- Scenario state after the additional refresh `upsert(A, 4)`. -/
def scenarioRefreshed : DoubleLinkedSet := add scenarioABC 1 4

/-! Basic dictionary lemmas. -/

theorem mapFind_eq_none_iff (m : NodeMap) (k : Nat) :
    mapFind m k = none ↔ k ∉ m.map Prod.fst := by
  induction m with
  | nil => simp [mapFind]
  | cons p rest ih =>
      obtain ⟨k0, n0⟩ := p
      simp only [List.map_cons, List.mem_cons]
      by_cases h : k0 = k
      · subst h; simp [mapFind]
      · rw [mapFind, if_neg h, ih]
        constructor
        · intro hn hc
          rcases hc with hc | hc
          · exact h hc.symm
          · exact hn hc
        · intro hn hc
          exact hn (Or.inr hc)

theorem mem_of_mapFind (m : NodeMap) (k : Nat) (n : Node)
    (h : mapFind m k = some n) : (k, n) ∈ m := by
  induction m with
  | nil => simp [mapFind] at h
  | cons p rest ih =>
      obtain ⟨k0, n0⟩ := p
      by_cases hk : k0 = k
      · subst hk
        rw [mapFind, if_pos rfl] at h
        injection h with h
        subst h
        exact List.mem_cons_self _ _
      · rw [mapFind, if_neg hk] at h
        exact List.mem_cons_of_mem _ (ih h)

theorem mapFind_of_mem_nodup (m : NodeMap) (k : Nat) (n : Node)
    (hm : (k, n) ∈ m) (hnd : (m.map Prod.fst).Nodup) : mapFind m k = some n := by
  induction m with
  | nil => simp at hm
  | cons p rest ih =>
      obtain ⟨k0, n0⟩ := p
      simp only [List.map_cons, List.nodup_cons] at hnd
      rcases List.mem_cons.mp hm with heq | htail
      · cases heq
        simp [mapFind]
      · have hk : ¬ k0 = k := by
          intro e
          refine hnd.1 ?_
          rw [e]
          exact List.mem_map_of_mem Prod.fst htail
        rw [mapFind, if_neg hk]
        exact ih htail hnd.2

theorem mapFind_perm {m m2 : NodeMap} (h : m.Perm m2)
    (hnd : (m.map Prod.fst).Nodup) (k : Nat) : mapFind m k = mapFind m2 k := by
  have hnd2 : (m2.map Prod.fst).Nodup := ((h.map Prod.fst).nodup_iff).mp hnd
  cases hf : mapFind m k with
  | none =>
      have h1 := (mapFind_eq_none_iff m k).mp hf
      have h2 : k ∉ m2.map Prod.fst := fun hc => h1 (((h.map Prod.fst).mem_iff).mpr hc)
      exact ((mapFind_eq_none_iff m2 k).mpr h2).symm
  | some n =>
      have hmem : (k, n) ∈ m2 := h.mem_iff.mp (mem_of_mapFind m k n hf)
      exact (mapFind_of_mem_nodup m2 k n hmem hnd2).symm

theorem mapErase_cons_of_eq (k0 : Nat) (p : Nat × Node) (rest : NodeMap)
    (h : p.1 = k0) : mapErase (p :: rest) k0 = mapErase rest k0 := by
  have hb : (p.1 != k0) = false := by
    rw [h]
    simp
  simp [mapErase, List.filter_cons, hb]

theorem mapErase_cons_of_ne (k0 : Nat) (p : Nat × Node) (rest : NodeMap)
    (h : ¬ p.1 = k0) : mapErase (p :: rest) k0 = p :: mapErase rest k0 := by
  have hb : (p.1 != k0) = true := by
    simp only [bne_iff_ne, ne_eq]
    exact h
  simp [mapErase, List.filter_cons, hb]

theorem mapFind_mapErase (m : NodeMap) (k0 k : Nat) :
    mapFind (mapErase m k0) k = if k = k0 then none else mapFind m k := by
  induction m with
  | nil => simp [mapFind, mapErase]
  | cons p rest ih =>
      obtain ⟨k1, n1⟩ := p
      by_cases h1 : k1 = k0
      · rw [mapErase_cons_of_eq k0 (k1, n1) rest h1, ih]
        by_cases h2 : k = k0
        · simp [h2]
        · have hk1 : ¬ k1 = k := by
            rw [h1]
            exact fun e => h2 e.symm
          rw [if_neg h2, if_neg h2, mapFind, if_neg hk1]
      · rw [mapErase_cons_of_ne k0 (k1, n1) rest h1]
        by_cases h3 : k1 = k
        · subst h3
          rw [mapFind, if_pos rfl, if_neg h1, mapFind, if_pos rfl]
        · rw [mapFind, if_neg h3, ih, mapFind, if_neg h3]

theorem mapFind_append (m1 m2 : NodeMap) (k : Nat) :
    mapFind (m1 ++ m2) k =
      (match mapFind m1 k with
       | some n => some n
       | none => mapFind m2 k) := by
  induction m1 with
  | nil => simp [mapFind]
  | cons p rest ih =>
      obtain ⟨k1, n1⟩ := p
      by_cases h : k1 = k <;> simp [mapFind, h, ih]

theorem mapFind_mapStore (m : NodeMap) (k0 k : Nat) (n : Node) :
    mapFind (mapStore m k0 n) k = if k = k0 then some n else mapFind m k := by
  rw [mapStore, mapFind_append, mapFind_mapErase]
  by_cases h : k = k0
  · simp [h, mapFind]
  · simp only [if_neg h]
    cases hf : mapFind m k with
    | none =>
        simp only [mapFind]
        rw [if_neg (fun e : k0 = k => h e.symm)]
    | some nn => simp

/-! Key-set and length preservation for the in-place field updates. -/

theorem keys_setParent (m : NodeMap) (c : Nat) (p : Option Nat) :
    (setParent m c p).map Prod.fst = m.map Prod.fst := by
  induction m with
  | nil => rfl
  | cons q rest ih =>
      simp only [setParent, List.map_cons] at ih ⊢
      by_cases h : q.1 = c
      · rw [if_pos h, ih]
      · rw [if_neg h, ih]

theorem keys_setChild (m : NodeMap) (c : Nat) (x : Option Nat) :
    (setChild m c x).map Prod.fst = m.map Prod.fst := by
  induction m with
  | nil => rfl
  | cons q rest ih =>
      simp only [setChild, List.map_cons] at ih ⊢
      by_cases h : q.1 = c
      · rw [if_pos h, ih]
      · rw [if_neg h, ih]

theorem keys_patchParent (m : NodeMap) (o p : Option Nat) :
    (patchParent m o p).map Prod.fst = m.map Prod.fst := by
  cases o with
  | none => rfl
  | some c =>
      by_cases h : c = 0 <;> simp [patchParent, h, keys_setParent]

theorem keys_patchChild (m : NodeMap) (o c : Option Nat) :
    (patchChild m o c).map Prod.fst = m.map Prod.fst := by
  cases o with
  | none => rfl
  | some k =>
      by_cases h : k = 0 <;> simp [patchChild, h, keys_setChild]

theorem length_patchParent (m : NodeMap) (o p : Option Nat) :
    (patchParent m o p).length = m.length := by
  have := congrArg List.length (keys_patchParent m o p)
  simpa using this

theorem length_patchChild (m : NodeMap) (o c : Option Nat) :
    (patchChild m o c).length = m.length := by
  have := congrArg List.length (keys_patchChild m o c)
  simpa using this

theorem mapErase_of_not_mem (m : NodeMap) (k : Nat)
    (h : k ∉ m.map Prod.fst) : mapErase m k = m := by
  induction m with
  | nil => rfl
  | cons p rest ih =>
      simp only [List.map_cons, List.mem_cons] at h
      push_neg at h
      have hp : ¬ p.1 = k := fun e => h.1 e.symm
      rw [mapErase_cons_of_ne k p rest hp, ih h.2]

theorem length_mapErase_of_mem_nodup (m : NodeMap) (k : Nat)
    (hnd : (m.map Prod.fst).Nodup) (hm : k ∈ m.map Prod.fst) :
    (mapErase m k).length + 1 = m.length := by
  induction m with
  | nil => simp at hm
  | cons p rest ih =>
      simp only [List.map_cons, List.nodup_cons] at hnd
      rcases List.mem_cons.mp hm with heq | htail
      · have hrest : mapErase rest k = rest :=
          mapErase_of_not_mem rest k (heq ▸ hnd.1)
        rw [mapErase_cons_of_eq k p rest heq.symm, hrest, List.length_cons]
      · have hp : ¬ p.1 = k := fun e => hnd.1 (e ▸ htail)
        rw [mapErase_cons_of_ne k p rest hp, List.length_cons, List.length_cons,
          ih hnd.2 htail]

/-! Chain representation: on a state satisfying I1–I3, `iterate` walks the
whole abstract chain. -/

theorem keys_chainNodes (L : List (Nat × Nat)) :
    ∀ prev, (chainNodes prev L).map Prod.fst = L.map Prod.fst := by
  induction L with
  | nil => intro prev; rfl
  | cons p rest ih =>
      intro prev
      obtain ⟨k, v⟩ := p
      simp only [chainNodes, List.map_cons, ih]

theorem length_chainNodes (L : List (Nat × Nat)) (prev : Option Nat) :
    (chainNodes prev L).length = L.length := by
  have h := congrArg List.length (keys_chainNodes L prev)
  simpa using h

theorem iterFrom_chain (m : NodeMap) (L2 : List (Nat × Nat)) :
    ∀ (prev : Option Nat) (fuel : Nat),
      (∀ p ∈ chainNodes prev L2, mapFind m p.1 = some p.2) →
      L2.length ≤ fuel →
      iterFrom m (keyHead L2) fuel = (chainNodes prev L2).map Prod.snd := by
  induction L2 with
  | nil =>
      intro prev fuel _ _
      cases fuel <;> simp [iterFrom, keyHead, chainNodes]
  | cons p rest ih =>
      intro prev fuel hmem hlen
      obtain ⟨k, v⟩ := p
      cases fuel with
      | zero => simp at hlen
      | succ f =>
          have hk : mapFind m k = some ⟨k, v, prev, keyHead rest⟩ :=
            hmem (k, ⟨k, v, prev, keyHead rest⟩) (by simp [chainNodes])
          have hrest : ∀ q ∈ chainNodes (some k) rest, mapFind m q.1 = some q.2 :=
            fun q hq => hmem q (by simp [chainNodes, hq])
          have hlen2 : rest.length ≤ f := by
            simp only [List.length_cons] at hlen
            omega
          simp only [keyHead, iterFrom, hk, chainNodes, List.map_cons]
          exact congrArg (_ :: ·) (ih (some k) f hrest hlen2)

theorem iterate_of_represents {s : DoubleLinkedSet} {L : List (Nat × Nat)}
    (h : Represents s L) : iterate s = (chainNodes none L).map Prod.snd := by
  obtain ⟨hperm, hnodL, hhead, htail⟩ := h
  have hndm : (s.map.map Prod.fst).Nodup := by
    rw [List.Perm.nodup_iff (hperm.map Prod.fst)]
    rw [keys_chainNodes]
    exact hnodL
  have hmem : ∀ p ∈ chainNodes none L, mapFind s.map p.1 = some p.2 := by
    intro p hp
    obtain ⟨k, n⟩ := p
    exact mapFind_of_mem_nodup s.map k n (hperm.mem_iff.mpr hp) hndm
  have hfuel : L.length ≤ s.map.length := by
    rw [hperm.length_eq, length_chainNodes]
  rw [iterate, hhead]
  exact iterFrom_chain s.map L none s.map.length hmem hfuel

theorem size_of_represents {s : DoubleLinkedSet} {L : List (Nat × Nat)}
    (h : Represents s L) : size s = L.length := by
  rw [size, h.1.length_eq, length_chainNodes]

theorem iterate_length_of_represents {s : DoubleLinkedSet}
    {L : List (Nat × Nat)} (h : Represents s L) :
    (iterate s).length = size s := by
  rw [iterate_of_represents h, size_of_represents h]
  simp [length_chainNodes]

/-! Stored values are untouched by the link-field updates. -/

theorem findValue_setParent (m : NodeMap) (c : Nat) (p : Option Nat) (k : Nat) :
    findValue (setParent m c p) k = findValue m k := by
  induction m with
  | nil => rfl
  | cons q rest ih =>
      obtain ⟨k1, n1⟩ := q
      show findValue
        ((if k1 = c then (k1, { n1 with parent_id := p }) else (k1, n1)) ::
          setParent rest c p) k = _
      by_cases hc : k1 = c
      · rw [if_pos hc]
        by_cases hk : k1 = k
        · simp [findValue, mapFind, hk]
        · simp only [findValue, mapFind, if_neg hk] at ih ⊢
          exact ih
      · rw [if_neg hc]
        by_cases hk : k1 = k
        · simp [findValue, mapFind, hk]
        · simp only [findValue, mapFind, if_neg hk] at ih ⊢
          exact ih

theorem findValue_setChild (m : NodeMap) (c : Nat) (x : Option Nat) (k : Nat) :
    findValue (setChild m c x) k = findValue m k := by
  induction m with
  | nil => rfl
  | cons q rest ih =>
      obtain ⟨k1, n1⟩ := q
      show findValue
        ((if k1 = c then (k1, { n1 with child_id := x }) else (k1, n1)) ::
          setChild rest c x) k = _
      by_cases hc : k1 = c
      · rw [if_pos hc]
        by_cases hk : k1 = k
        · simp [findValue, mapFind, hk]
        · simp only [findValue, mapFind, if_neg hk] at ih ⊢
          exact ih
      · rw [if_neg hc]
        by_cases hk : k1 = k
        · simp [findValue, mapFind, hk]
        · simp only [findValue, mapFind, if_neg hk] at ih ⊢
          exact ih

theorem findValue_patchParent (m : NodeMap) (o p : Option Nat) (k : Nat) :
    findValue (patchParent m o p) k = findValue m k := by
  cases o with
  | none => rfl
  | some c =>
      by_cases h : c = 0
      · simp [patchParent, h]
      · simp [patchParent, h, findValue_setParent]

theorem findValue_patchChild (m : NodeMap) (o c : Option Nat) (k : Nat) :
    findValue (patchChild m o c) k = findValue m k := by
  cases o with
  | none => rfl
  | some k1 =>
      by_cases h : k1 = 0
      · simp [patchChild, h]
      · simp [patchChild, h, findValue_setChild]

theorem findValue_mapErase_ne (m : NodeMap) (k0 k : Nat) (h : ¬ k = k0) :
    findValue (mapErase m k0) k = findValue m k := by
  simp only [findValue, mapFind_mapErase, if_neg h]

theorem findValue_mapStore_ne (m : NodeMap) (k0 : Nat) (n : Node) (k : Nat)
    (h : ¬ k = k0) :
    findValue (mapStore m k0 n) k = findValue m k := by
  simp only [findValue, mapFind_mapStore, if_neg h]

/-- For any other key, `add` preserves the stored value: all map rewrites it
performs are an erase/store at the upserted key and link-field patches. -/
theorem findValue_add_ne (s : DoubleLinkedSet) (k v k2 : Nat)
    (hne : ¬ k2 = k) :
    findValue (add s k v).map k2 = findValue s.map k2 := by
  cases hf : mapFind s.map k with
  | some node0 =>
      simp only [add, hf, addFinish]
      rw [findValue_patchChild, findValue_mapStore_ne _ _ _ _ hne,
        findValue_patchChild, findValue_patchParent,
        findValue_mapErase_ne _ _ _ hne]
  | none =>
      simp only [add, hf, addFinish]
      rw [findValue_patchChild, findValue_mapStore_ne _ _ _ _ hne]

/-! The claims. -/

/-- Claim C1 (code bug): the claim says that from any state satisfying
I1–I3, after `upsert(key, value)` the key is newest and I1–I3 hold again,
for any key and value.  The code violates this: `zeroKeyState` (reached by
`upsert(0, 1)`, chain `0:1`) satisfies I1–I3, yet after `upsert(1, 2)` the
truthiness-guarded endpoint updates (`if self._tail_id:`,
`if not self._head_id:`) treat the key `0` as unset, so the resulting state
has two mapped nodes but a chain that reaches only one of them — no chain
list can represent it, i.e. invariant I1 is broken. -/
theorem upsert_invariant_bug :
    Represents zeroKeyState [(0, 1)] ∧
    size zeroThenOneState = 2 ∧
    (iterate zeroThenOneState).map Node.id = [1] ∧
    ¬ Invariant zeroThenOneState := by
  refine ⟨⟨by decide, by decide, by decide, by decide⟩, by decide, by decide, ?_⟩
  rintro ⟨L, hL⟩
  have h := iterate_length_of_represents hL
  rw [show (iterate zeroThenOneState).length = 1 from by decide,
    show size zeroThenOneState = 2 from by decide] at h
  exact absurd h (by decide)

/-- Claim C2 counterexample: at the state reached by `upsert(1, 5)`, key `1`
is present with stored value `5`, yet `removeByKey(1)` (= `unlink`) does not
return that value — the Python method has no `return` statement, so its
result is always `None`. -/
theorem unlink_value_return_cex :
    (mapFind (add emptyDLS 1 5).map 1).map Node.value = some 5 ∧
    (unlink (add emptyDLS 1 5) 1).1 ≠ some 5 := by decide

/-- Claim C2 (amended): `removeByKey(key)` always returns an empty result —
in particular an empty result when the key is absent, as claimed, but never
the stored value when the key is present. -/
theorem unlink_returns_empty (s : DoubleLinkedSet) (k : Nat) :
    (unlink s k).1 = none := by
  cases hf : mapFind s.map k <;> simp [unlink, hf]

/-- Claim C3 (code bug): after the operation sequence `upsert(0, 1)` from
the empty index, `oldest()` returns an empty result even though `iterate()`
yields one entry and `size()` is `1`: `head()` tests `if self._head_id:`,
which is false for the stored head key `0`.  The claim promised
`oldest() = first of iterate()` and `oldest()` empty iff `size() == 0`. -/
theorem oldest_iterate_mismatch_bug :
    head zeroKeyState = none ∧
    (iterate zeroKeyState).map (fun n => (n.id, n.value)) = [(0, 1)] ∧
    size zeroKeyState = 1 := by decide

/-- Claim C4 (code bug): the upsert sequence `upsert(0, 1); upsert(1, 2)`
from the empty index uses pairwise distinct keys, but `iterate()` then
yields only the key `1` instead of `[0, 1]`: the truthiness-guarded tail
patch skipped linking node `0` to node `1`, and the head was overwritten. -/
theorem upsert_order_bug :
    (0 : Nat) ≠ 1 ∧
    (iterate zeroThenOneState).map Node.id = [1] ∧
    (iterate zeroThenOneState).map Node.id ≠ [0, 1] := by decide

/-- Claim C5 (code bug): `interiorZeroState` satisfies I1–I3 with chain
`1:10, 0:20, 2:30, 3:40` and key `2` present; after `removeByKey(2)` the
size does drop by one, but `iterate()` yields `[1:10, 0:20]` instead of the
claimed original-minus-key `[1:10, 0:20, 3:40]`: the splice is guarded by
`if node.parent_id:`, which is false for the parent key `0`, so node `0`
keeps its dangling forward link to the removed key and traversal stops. -/
theorem splice_iterate_bug :
    Represents interiorZeroState [(1, 10), (0, 20), (2, 30), (3, 40)] ∧
    (iterate interiorZeroState).map (fun n => (n.id, n.value)) =
      [(1, 10), (0, 20), (2, 30), (3, 40)] ∧
    mapFind interiorZeroState.map 2 ≠ none ∧
    size (unlink interiorZeroState 2).2 = size interiorZeroState - 1 ∧
    (iterate (unlink interiorZeroState 2).2).map (fun n => (n.id, n.value)) =
      [(1, 10), (0, 20)] ∧
    (iterate (unlink interiorZeroState 2).2).map (fun n => (n.id, n.value)) ≠
      [(1, 10), (0, 20), (3, 40)] := by
  refine ⟨⟨by decide, by decide, by decide, by decide⟩,
    by decide, by decide, by decide, by decide, by decide⟩

/-- Claim C6 (code bug): `zeroHeadState` satisfies I1–I3 with chain
`0:1, 1:2`, values non-decreasing and both `≤` the cutoff `5`, so the claim
demands that `expireUpTo(5, value<=cutoff)` remove the two leading expired
entries and return `2`.  The code removes nothing and returns `0`: the scan
reads `head()`, whose `if self._head_id:` guard is false for the stored
oldest key `0`. -/
theorem expire_count_bug :
    Represents zeroHeadState [(0, 1), (1, 2)] ∧
    (iterate zeroHeadState).map Node.value = [1, 2] ∧
    ((iterate zeroHeadState).takeWhile (fun n => decide (n.value ≤ 5))).length = 2 ∧
    (cleanup_sessions zeroHeadState 5).1 = 0 ∧
    (cleanup_sessions zeroHeadState 5).2 = zeroHeadState := by
  refine ⟨⟨by decide, by decide, by decide, by decide⟩,
    by decide, by decide, by decide, by decide⟩

/-- Claim C7 (confirmed): the spec's example scenario with keys
`A, B, C := 1, 2, 3`: after `upsert(1:1); upsert(2:2); upsert(3:3)`,
`oldest()` is the entry `1:1`; after the refresh `upsert(1, 4)`, `iterate()`
yields exactly `[2:2, 3:3, 1:4]`; then `expireUpTo(2, value<=cutoff)`
removes only the entry `2:2` (count `1`), leaving `[3:3, 1:4]`. -/
theorem example_scenario_ok :
    (head scenarioABC).map (fun n => (n.id, n.value)) = some (1, 1) ∧
    (iterate scenarioRefreshed).map (fun n => (n.id, n.value)) =
      [(2, 2), (3, 3), (1, 4)] ∧
    (cleanup_sessions scenarioRefreshed 2).1 = 1 ∧
    (iterate (cleanup_sessions scenarioRefreshed 2).2).map
      (fun n => (n.id, n.value)) = [(3, 3), (1, 4)] := by decide

/-- Claim C8 (confirmed): `removeByKey` on an absent key returns an empty
result and leaves the state completely unchanged, and on the empty index
`oldest()` is empty, `iterate()` yields nothing and `size()` is `0` (the
embedding is functional, so no mutation can occur in these read paths). -/
theorem empty_ops_noop (s : DoubleLinkedSet) (k : Nat)
    (h : mapFind s.map k = none) :
    unlink s k = (none, s) ∧ head emptyDLS = none ∧
      iterate emptyDLS = [] ∧ size emptyDLS = 0 := by
  refine ⟨?_, rfl, rfl, rfl⟩
  simp [unlink, h]

/-- Witness for `empty_ops_noop`: key `7` is absent from the empty index. -/
theorem empty_ops_noop_w :
    mapFind emptyDLS.map 7 = none ∧
      (unlink emptyDLS 7 = (none, emptyDLS) ∧ head emptyDLS = none ∧
        iterate emptyDLS = [] ∧ size emptyDLS = 0) :=
  ⟨rfl, empty_ops_noop emptyDLS 7 rfl⟩

/-- Claim C9 (confirmed): `upsert(k, v)` never rewrites the value stored for
a different key `k2`: if `k2` maps to node `n0` before the call, it maps to
a node with the same value afterwards — `add` only erases/stores the
upserted key and patches `parent_id`/`child_id` link fields of other
nodes. -/
theorem upsert_frame_other_values (s : DoubleLinkedSet) (k v k2 : Nat)
    (n0 : Node) (hne : k2 ≠ k) (hp : mapFind s.map k2 = some n0) :
    ∃ n1, mapFind (add s k v).map k2 = some n1 ∧ n1.value = n0.value := by
  have h := findValue_add_ne s k v k2 hne
  rw [findValue, findValue, hp] at h
  cases hq : mapFind (add s k v).map k2 with
  | none =>
      rw [hq] at h
      simp at h
  | some n1 =>
      rw [hq] at h
      simp only [Option.map_some'] at h
      exact ⟨n1, rfl, by injection h⟩

/-- Witness for `upsert_frame_other_values`: upserting key `1` into the
index `{2 ↦ 7}` leaves the value stored for key `2` unchanged. -/
theorem upsert_frame_other_values_w :
    (2 : Nat) ≠ 1 ∧ mapFind (add emptyDLS 2 7).map 2 = some ⟨2, 7, none, none⟩ ∧
      ∃ n1, mapFind (add (add emptyDLS 2 7) 1 9).map 2 = some n1 ∧
        n1.value = (⟨2, 7, none, none⟩ : Node).value :=
  ⟨by decide, by decide,
    upsert_frame_other_values (add emptyDLS 2 7) 1 9 2 ⟨2, 7, none, none⟩
      (by decide) (by decide)⟩

/-- Claim C10 (confirmed): on a well-formed dictionary (no duplicate keys —
automatic for a Python `dict`), `upsert` leaves `size()` unchanged when the
key is present and increases it by exactly one when the key is absent; and
`size()` is by definition `len(self._map)`, the number of entries in the
key-to-node mapping. -/
theorem upsert_size_change (s : DoubleLinkedSet) (k v : Nat)
    (hnd : (s.map.map Prod.fst).Nodup) :
    size (add s k v) =
      (if mapFind s.map k = none then size s + 1 else size s) ∧
    size s = s.map.length := by
  refine ⟨?_, rfl⟩
  cases hf : mapFind s.map k with
  | none =>
      have hnm : k ∉ s.map.map Prod.fst := (mapFind_eq_none_iff s.map k).mp hf
      simp only [add, hf, addFinish, size, if_pos]
      rw [length_patchChild, mapStore, List.length_append,
        mapErase_of_not_mem s.map k hnm]
      simp
  | some node0 =>
      have hmem : k ∈ s.map.map Prod.fst :=
        List.mem_map_of_mem Prod.fst (mem_of_mapFind s.map k node0 hf)
      have hlen := length_mapErase_of_mem_nodup s.map k hnd hmem
      have hnotm : k ∉ (patchChild
          (patchParent (mapErase s.map k) node0.child_id node0.parent_id)
          node0.parent_id node0.child_id).map Prod.fst := by
        rw [keys_patchChild, keys_patchParent, ← mapFind_eq_none_iff,
          mapFind_mapErase]
        simp
      simp only [add, hf, addFinish, size]
      rw [if_neg (Option.some_ne_none node0)]
      rw [length_patchChild, mapStore, List.length_append,
        mapErase_of_not_mem _ k hnotm, length_patchChild, length_patchParent]
      simp only [List.length_singleton]
      omega

/-- Witness for `upsert_size_change`: re-upserting the present key `1` into
the singleton index `{1 ↦ 5}` keeps the size at `1`. -/
theorem upsert_size_change_w :
    ((add emptyDLS 1 5).map.map Prod.fst).Nodup ∧
      (size (add (add emptyDLS 1 5) 1 9) =
        (if mapFind (add emptyDLS 1 5).map 1 = none then
          size (add emptyDLS 1 5) + 1 else size (add emptyDLS 1 5)) ∧
      size (add emptyDLS 1 5) = (add emptyDLS 1 5).map.length) :=
  ⟨by decide, upsert_size_change (add emptyDLS 1 5) 1 9 (by decide)⟩

end PerfExpire
